/-
Verification of the bulker ingestion library's warehouse adapters against
its specification.  The Go sources are shallowly embedded: pure helper
functions become Lean functions, database side effects become explicit
state passing over an association-list model of the warehouse, and
fallible Go calls return `Except`/`Option`.
-/
import Mathlib

namespace Bulker

/-! ## Data types (types.DataType)

The closed set of record-field types, `types.DataType` in the Go sources. -/

inductive DataType where
  | STRING
  | INT64
  | FLOAT64
  | TIMESTAMP
  | BOOL
  | JSON
  | UNKNOWN
  deriving DecidableEq, Repr

/-- `SchemaToClickhouse` map literal from the ClickHouse adapter
(src/unnamed/part_000, lines 58-65).  A Go map lookup yields `Option`;
keys absent from the literal (JSON) yield `none`. -/
def SchemaToClickhouse : DataType → Option String
  | .STRING => some "String"
  | .INT64 => some "Int64"
  | .FLOAT64 => some "Float64"
  | .TIMESTAMP => some "DateTime"
  | .BOOL => some "UInt8"
  | .UNKNOWN => some "String"
  | .JSON => none

/-- `SchemaToPostgres` map literal from the Postgres adapter
(src/unnamed/part_001, lines 65-72). -/
def SchemaToPostgres : DataType → Option String
  | .STRING => some "text"
  | .INT64 => some "bigint"
  | .FLOAT64 => some "double precision"
  | .TIMESTAMP => some "timestamp"
  | .BOOL => some "boolean"
  | .UNKNOWN => some "text"
  | .JSON => none

/-- `SchemaToBigQueryString` map literal from the older BigQuery adapter
(src/unnamed/part_002, lines 39-46); the values are the
`cloud.google.com/go/bigquery` field-type string constants. -/
def SchemaToBigQueryString : DataType → Option String
  | .STRING => some "STRING"
  | .INT64 => some "INTEGER"
  | .FLOAT64 => some "FLOAT"
  | .TIMESTAMP => some "TIMESTAMP"
  | .BOOL => some "BOOLEAN"
  | .UNKNOWN => some "STRING"
  | .JSON => none

/-- `bigqueryTypes` map literal from the current BigQuery adapter
(src/bulkerlib/implementations/sql/bigquery.go, lines 56-64): each data
type maps to a list of dialect types. -/
def bigqueryTypes : DataType → Option (List String)
  | .STRING => some ["STRING"]
  | .INT64 => some ["INTEGER"]
  | .FLOAT64 => some ["FLOAT"]
  | .TIMESTAMP => some ["TIMESTAMP"]
  | .BOOL => some ["BOOLEAN"]
  | .JSON => some ["JSON"]
  | .UNKNOWN => some ["STRING"]

/-- `bigqueryTypeMapping`, built by the package `init` from
`bigqueryTypes`: the entry at index 0 of each list becomes the forward
mapping (bigquery.go, lines 69-82). -/
def bigqueryTypeMapping (d : DataType) : Option String :=
  (bigqueryTypes d).bind List.head?

/-- C3: For every field whose DataType is still UNKNOWN at
materialization time, the column created in the warehouse uses the
dialect's STRING type: in every adapter's DataType-to-SQL-type mapping,
UNKNOWN maps to the same dialect type as STRING (ClickHouse "String",
Postgres "text", BigQuery StringFieldType), so an UNKNOWN type is never
persisted as a created column's type. -/
theorem unknown_maps_to_string_type :
    SchemaToClickhouse .UNKNOWN = SchemaToClickhouse .STRING
      ∧ SchemaToClickhouse .UNKNOWN = some "String"
      ∧ SchemaToPostgres .UNKNOWN = SchemaToPostgres .STRING
      ∧ SchemaToPostgres .UNKNOWN = some "text"
      ∧ bigqueryTypeMapping .UNKNOWN = bigqueryTypeMapping .STRING
      ∧ bigqueryTypeMapping .UNKNOWN = some "STRING"
      ∧ SchemaToBigQueryString .UNKNOWN = SchemaToBigQueryString .STRING
      ∧ SchemaToBigQueryString .UNKNOWN = some "STRING" := by
  refine ⟨rfl, rfl, rfl, rfl, rfl, rfl, rfl, rfl⟩

/-! ## Warehouse state model

The destination warehouse is modelled as an association list from table
names to table contents (a list of rows).  `dbGet`/`dbSet`/`dbDelete`
model the effect of the SQL statements the adapters issue. -/

section WarehouseState

variable {ρ : Type}

/-- Table contents keyed by table name. -/
abbrev DB (ρ : Type) := List (String × ρ)

/-- Contents of a named table, `none` when the table does not exist. -/
def dbGet : DB ρ → String → Option ρ
  | [], _ => none
  | e :: rest, name => if e.1 = name then some e.2 else dbGet rest name

/-- Remove a table. -/
def dbDelete : DB ρ → String → DB ρ
  | [], _ => []
  | e :: rest, name => if e.1 = name then dbDelete rest name else e :: dbDelete rest name

/-- Create or overwrite a table with the given contents. -/
def dbSet (db : DB ρ) (name : String) (rows : ρ) : DB ρ :=
  (name, rows) :: dbDelete db name

theorem dbGet_dbDelete (db : DB ρ) (n m : String) :
    dbGet (dbDelete db n) m = if m = n then none else dbGet db m := by
  induction db with
  | nil => simp [dbGet, dbDelete]
  | cons e rest ih =>
    by_cases he : e.1 = n
    · by_cases hm : m = n
      · subst hm; simp [dbDelete, he, ih]
      · have hnm : ¬(n = m) := fun hc => hm hc.symm
        simp [dbDelete, dbGet, he, ih, hm, hnm]
    · by_cases hem : e.1 = m
      · have hm : ¬m = n := fun hc => he (hem.trans hc)
        simp [dbDelete, dbGet, he, hem, hm]
      · simp [dbDelete, dbGet, he, hem, ih]

theorem dbGet_dbSet_same (db : DB ρ) (n : String) (r : ρ) :
    dbGet (dbSet db n r) n = some r := by
  simp [dbGet, dbSet]

theorem dbGet_dbSet_other (db : DB ρ) (n m : String) (r : ρ) (h : m ≠ n) :
    dbGet (dbSet db n r) m = dbGet db m := by
  have : ¬(n = m) := fun hc => h hc.symm
  simp [dbGet, dbSet, this, dbGet_dbDelete, h]

end WarehouseState

/-! ## C2: ReplaceTable (ClickHouse and BigQuery)

`ClickHouse.ReplaceTable` (src/unnamed/part_000, lines 617-652) issues
`EXCHANGE TABLES orig AND repl`; when that fails with a table-not-exist
error it falls back to `RENAME TABLE repl TO orig`; after a successful
exchange it drops the leftover table when `dropOldTable` is set.  The
embedding models the configuration without a cluster
(`config.Cluster == ""`), so the distributed-table statements guarded by
`ch.config.Cluster != ""` in the source are not reached. -/

section ReplaceTable

variable {ρ : Type}

/-- `EXCHANGE TABLES a AND b`: atomically swaps the contents of two
existing tables; fails with a table-not-exist error when either table is
missing. -/
def chExchangeTables (db : DB ρ) (a b : String) : Except String (DB ρ) :=
  match dbGet db a, dbGet db b with
  | some ra, some rb => .ok (dbSet (dbSet db a rb) b ra)
  | _, _ => .error "ErrTableNotExist"

/-- `RENAME TABLE a TO b`: moves table `a` to name `b`; fails when `a`
is missing or `b` already exists. -/
def chRenameTable (db : DB ρ) (a b : String) : Except String (DB ρ) :=
  match dbGet db a, dbGet db b with
  | some ra, none => .ok (dbSet (dbDelete db a) b ra)
  | _, _ => .error "error renaming table"

/-- `ClickHouse.DropTable` with `ifExists`: `DROP TABLE IF EXISTS`
never fails on a missing table (part_000, lines 585-615; non-cluster
configuration). -/
def chDropTable (db : DB ρ) (name : String) (ifExists : Bool) : Except String (DB ρ) :=
  match dbGet db name with
  | some _ => .ok (dbDelete db name)
  | none => if ifExists then .ok db else .error "failed to drop table"

/-- `ClickHouse.ReplaceTable` (part_000, lines 617-652), non-cluster
configuration: exchange, rename fallback on table-not-exist, and
`DropTable(replacementTable, true)` when `dropOldTable` is set. -/
def chReplaceTable (db : DB ρ) (originalTable replacementTable : String)
    (dropOldTable : Bool) : Except String (DB ρ) :=
  match chExchangeTables db originalTable replacementTable with
  | .ok db1 =>
    if dropOldTable then chDropTable db1 replacementTable true
    else .ok db1
  | .error _ =>
    -- checkNotExistErr(err) == ErrTableNotExist: fall back to RENAME
    match chRenameTable db replacementTable originalTable with
    | .ok db1 => .ok db1
    | .error e => .error e

/-- `BigQuery.DropTable` (src/bulkerlib/implementations/sql/bigquery.go,
lines 567-588): a missing table is tolerated only when `ifExists`. -/
def bqDropTable (db : DB ρ) (name : String) (ifExists : Bool) : Except String (DB ρ) :=
  match dbGet db name with
  | none => if ifExists then .ok db else .error "failed to drop table"
  | some _ => .ok (dbDelete db name)

/-- `BigQuery.ReplaceTable` (bigquery.go, lines 594-623): a copy job with
`WriteTruncate` + `CreateIfNeeded` overwrites the target with the
replacement's contents, then `DropTable(replacement, false)` when
`dropOldTable` is set.  The copy job fails when the source table does
not exist. -/
def bqReplaceTable (db : DB ρ) (targetTableName replacementTableName : String)
    (dropOldTable : Bool) : Except String (DB ρ) :=
  match dbGet db replacementTableName with
  | none => .error "failed to replace table: source not found"
  | some r =>
    let db1 := dbSet db targetTableName r
    if dropOldTable then bqDropTable db1 replacementTableName false
    else .ok db1

/-- C2: For every pair of table names (target, replacement), the adapter
operation ReplaceTable makes the destination named target hold exactly
the contents of replacement in a single cutover: when the replacement
table exists (and is distinct from the target), both the ClickHouse and
the BigQuery implementations succeed, afterwards the target holds the
replacement's contents, and when dropOld is true the leftover
replacement table is gone. -/
theorem replace_table_contract (db : DB ρ) (target repl : String) (rows : ρ)
    (dropOld : Bool) (hne : target ≠ repl) (hrepl : dbGet db repl = some rows) :
    (∃ db1, chReplaceTable db target repl dropOld = .ok db1
        ∧ dbGet db1 target = some rows
        ∧ (dropOld = true → dbGet db1 repl = none))
    ∧ (∃ db2, bqReplaceTable db target repl dropOld = .ok db2
        ∧ dbGet db2 target = some rows
        ∧ (dropOld = true → dbGet db2 repl = none)) := by
  constructor
  · -- ClickHouse
    cases horig : dbGet db target with
    | some o =>
      -- exchange succeeds
      have hswap : chExchangeTables db target repl
          = .ok (dbSet (dbSet db target rows) repl o) := by
        simp [chExchangeTables, horig, hrepl]
      have htgt : dbGet (dbSet (dbSet db target rows) repl o) target = some rows := by
        rw [dbGet_dbSet_other _ _ _ _ hne, dbGet_dbSet_same]
      cases dropOld with
      | false =>
        refine ⟨dbSet (dbSet db target rows) repl o, ?_, htgt, by simp⟩
        simp [chReplaceTable, hswap]
      | true =>
        refine ⟨dbDelete (dbSet (dbSet db target rows) repl o) repl, ?_, ?_, ?_⟩
        · have hdrop : chDropTable (dbSet (dbSet db target rows) repl o) repl true
              = .ok (dbDelete (dbSet (dbSet db target rows) repl o) repl) := by
            simp [chDropTable, dbGet_dbSet_same]
          simp [chReplaceTable, hswap, hdrop]
        · rw [dbGet_dbDelete, if_neg hne, htgt]
        · intro _; rw [dbGet_dbDelete, if_pos rfl]
    | none =>
      -- exchange fails with table-not-exist, rename fallback
      have hex : chExchangeTables db target repl = .error "ErrTableNotExist" := by
        simp [chExchangeTables, horig]
      have hren : chRenameTable db repl target
          = .ok (dbSet (dbDelete db repl) target rows) := by
        simp [chRenameTable, hrepl, horig]
      refine ⟨dbSet (dbDelete db repl) target rows, ?_, dbGet_dbSet_same _ _ _, ?_⟩
      · simp [chReplaceTable, hex, hren]
      · intro _
        rw [dbGet_dbSet_other _ _ _ _ (Ne.symm hne), dbGet_dbDelete, if_pos rfl]
  · -- BigQuery
    have htgt : dbGet (dbSet db target rows) target = some rows := dbGet_dbSet_same _ _ _
    cases dropOld with
    | false =>
      refine ⟨dbSet db target rows, ?_, htgt, by simp⟩
      simp [bqReplaceTable, hrepl]
    | true =>
      have hrepl1 : dbGet (dbSet db target rows) repl = some rows := by
        rw [dbGet_dbSet_other _ _ _ _ (Ne.symm hne), hrepl]
      refine ⟨dbDelete (dbSet db target rows) repl, ?_, ?_, ?_⟩
      · simp [bqReplaceTable, hrepl, bqDropTable, hrepl1]
      · rw [dbGet_dbDelete, if_neg hne, htgt]
      · intro _; rw [dbGet_dbDelete, if_pos rfl]

/-- Witness for `replace_table_contract` at a concrete warehouse:
a target table "events" with one row and a staging table "events_tmp". -/
theorem replace_table_contract_witness :
    ("events" : String) ≠ "events_tmp"
      ∧ dbGet [("events", [1]), ("events_tmp", [9, 10])] "events_tmp" = some [9, 10]
      ∧ ((∃ db1, chReplaceTable [("events", [1]), ("events_tmp", [9, 10])]
              "events" "events_tmp" true = .ok db1
            ∧ dbGet db1 "events" = some [9, 10]
            ∧ (true = true → dbGet db1 "events_tmp" = none))
        ∧ (∃ db2, bqReplaceTable [("events", [1]), ("events_tmp", [9, 10])]
              "events" "events_tmp" true = .ok db2
            ∧ dbGet db2 "events" = some [9, 10]
            ∧ (true = true → dbGet db2 "events_tmp" = none))) :=
  ⟨by decide, by decide,
    replace_table_contract _ "events" "events_tmp" [9, 10] true (by decide) (by decide)⟩

end ReplaceTable

/-! ## C4: GetTableSchema returns an empty table for a missing table

`BigQuery.GetTableSchema` (src/bulkerlib/implementations/sql/bigquery.go
lines 239-276, and the older src/unnamed/part_002 lines 183-208) asks for
the table metadata; a 404 becomes a success with an empty column set.
`Postgres.GetTableSchema` (src/unnamed/part_001, lines 186-258) queries
the catalog; a missing table yields zero catalog rows, which becomes an
empty column set, and the primary-key query is skipped. -/

section GetTableSchema

/-- An in-memory table descriptor: name, columns (name and dialect type,
in order), primary-key fields and constraint name. -/
structure Table where
  name : String
  columns : List (String × String)
  pkFields : List String
  primaryKeyName : String
  deriving DecidableEq, Repr

/-- Result of fetching table metadata from BigQuery: the table is
missing (a 404, `isNotFoundErr`), present with a schema and labels, or
the call failed for another reason. -/
inductive BQMetadata where
  | notFound
  | found (schema : List (String × String)) (labels : List (String × String))
  | failure (e : String)
  deriving DecidableEq, Repr

/-- `BigQuery.GetTableSchema` (bigquery.go, lines 239-276): 404 yields an
empty table, another error is wrapped and returned, otherwise columns
come from the metadata schema and primary keys from the table label
carrying the bulker-managed constraint prefix (`bulker_pk_`, §6.5 of the
spec). -/
def bqGetTableSchema (tableName : String) (meta : BQMetadata) : Except String Table :=
  match meta with
  | .notFound => .ok ⟨tableName, [], [], ""⟩
  | .failure _ => .error "failed to get table"
  | .found schema labels =>
    let pkLabel := labels.find? (fun kv => "bulker_pk_".isPrefixOf kv.1)
    match pkLabel with
    | some (k, v) => .ok ⟨tableName, schema, v.splitOn "---", k⟩
    | none => .ok ⟨tableName, schema, [], ""⟩

/-- Result of a catalog query against Postgres: the rows produced by the
statement, or a query failure.  A missing table produces zero rows, not
an error. -/
abbrev PGQueryResult := Except String (List (String × String))

/-- `Postgres.getTable` (part_001, lines 212-258): builds the column set
from the catalog rows, skipping dropped columns whose formatted type is
`"-"`. -/
def pgGetTable (tableName : String) (rows : PGQueryResult) : Except String Table :=
  match rows with
  | .error _ => .error "failed to get table columns"
  | .ok rs => .ok ⟨tableName, rs.filter (fun r => r.2 ≠ "-"), [], ""⟩

/-- `Postgres.getPrimaryKey` (part_001, lines 365-414): first non-empty
constraint name and the key columns. -/
def pgGetPrimaryKey (pkRows : PGQueryResult) : Except String (String × List String) :=
  match pkRows with
  | .error _ => .error "failed to get primary key"
  | .ok rs =>
    let primaryKeyName := ((rs.find? (fun r => r.1 ≠ "")).map (·.1)).getD ""
    .ok (primaryKeyName, rs.map (·.2))

/-- `Postgres.GetTableSchema` (part_001, lines 186-210): fetch the
columns; when the column set is empty the table does not exist and the
primary-key query is skipped. -/
def pgGetTableSchema (tableName : String) (rows pkRows : PGQueryResult) :
    Except String Table :=
  match pgGetTable tableName rows with
  | .error e => .error e
  | .ok table =>
    if table.columns = [] then .ok table
    else
      match pgGetPrimaryKey pkRows with
      | .error e => .error e
      | .ok (pkName, pks) => .ok { table with pkFields := pks, primaryKeyName := pkName }

/-- `BigQuery.GetTableSchema` of the older adapter (src/unnamed/part_002,
lines 183-208): same 404 handling, no primary-key labels. -/
def bqGetTableSchemaOld (tableName : String) (meta : BQMetadata) : Except String Table :=
  match meta with
  | .notFound => .ok ⟨tableName, [], [], ""⟩
  | .failure _ => .error "failed to get table"
  | .found schema _ => .ok ⟨tableName, schema, [], ""⟩

/-- C4: For every table name, GetTableSchema returns a non-nil Table and
never returns a not-found error: when the table does not exist in the
warehouse, the result is a Table with the requested name and an empty
column set (and no error); an error is returned only for failures other
than absence of the table.  Stated for the current BigQuery adapter, the
older BigQuery adapter, and the Postgres adapter. -/
theorem get_table_schema_never_not_found (name : String) :
    (bqGetTableSchema name .notFound = .ok ⟨name, [], [], ""⟩)
    ∧ (∀ meta, (∃ e, bqGetTableSchema name meta = .error e) → ∃ e, meta = .failure e)
    ∧ (bqGetTableSchemaOld name .notFound = .ok ⟨name, [], [], ""⟩)
    ∧ (∀ meta, (∃ e, bqGetTableSchemaOld name meta = .error e) → ∃ e, meta = .failure e)
    ∧ (∀ pkRows, pgGetTableSchema name (.ok []) pkRows = .ok ⟨name, [], [], ""⟩)
    ∧ (∀ rows pkRows, (∃ e, pgGetTableSchema name rows pkRows = .error e) →
        rows = .error "" ∨ (∃ e, rows = .error e) ∨ (∃ e, pkRows = .error e)) := by
  refine ⟨rfl, ?_, rfl, ?_, ?_, ?_⟩
  · intro meta ⟨e, he⟩
    cases meta with
    | notFound => simp [bqGetTableSchema] at he
    | failure e' => exact ⟨e', rfl⟩
    | found schema labels =>
      simp only [bqGetTableSchema] at he
      cases hfind : labels.find? (fun kv => "bulker_pk_".isPrefixOf kv.1) with
      | none => rw [hfind] at he; simp at he
      | some kv => rw [hfind] at he; cases kv; simp at he
  · intro meta ⟨e, he⟩
    cases meta with
    | notFound => simp [bqGetTableSchemaOld] at he
    | failure e' => exact ⟨e', rfl⟩
    | found schema labels => simp [bqGetTableSchemaOld] at he
  · intro pkRows
    simp [pgGetTableSchema, pgGetTable]
  · intro rows pkRows ⟨e, he⟩
    cases rows with
    | error e' => exact .inr (.inl ⟨e', rfl⟩)
    | ok rs =>
      simp only [pgGetTableSchema, pgGetTable] at he
      split_ifs at he with hcols
      cases pkRows with
      | error e' => exact .inr (.inr ⟨e', rfl⟩)
      | ok pks => simp [pgGetPrimaryKey] at he

/-- Witness for `get_table_schema_never_not_found`: a failed metadata
fetch for table "events" is classified as a non-absence failure. -/
theorem get_table_schema_never_not_found_witness :
    ∃ e, (BQMetadata.failure "io") = BQMetadata.failure e :=
  (get_table_schema_never_not_found "events").2.1 (.failure "io")
    ⟨"failed to get table", rfl⟩

end GetTableSchema

/-! ## Stream state machine (src/implementations/sql/abstract.go)

`AbstractSQLStream` keeps a `bulker.State` with a status and row
counters.  `preprocess` guards every `Consume`, `postConsume` accounts
for the per-object processing result, and `postComplete` drives the
terminal transition of `Complete`. -/

section StreamState

/-- `bulker.Status`. -/
inductive Status where
  | Active
  | Completed
  | Aborted
  | Failed
  deriving DecidableEq, Repr

/-- Rendering of a status used in the stream-inactive error message. -/
def Status.text : Status → String
  | .Active => "ACTIVE"
  | .Completed => "COMPLETED"
  | .Aborted => "ABORTED"
  | .Failed => "FAILED"

/-- `bulker.State`: status, row counters and last error info. -/
structure StreamState where
  status : Status
  processedRows : Nat
  successfulRows : Nat
  errorRowIndex : Nat
  lastError : Option String
  deriving DecidableEq, Repr

/-- The state installed by `newAbstractStream` (abstract.go, line 40):
`bulker.State{Status: bulker.Active}` with zero counters. -/
def initialStreamState : StreamState :=
  ⟨.Active, 0, 0, 0, none⟩

/-- An ingested object: field names with values (values are irrelevant
to the counter claims, so fields are kept as names). -/
abbrev EventObject := List String

/-- Modelled from the spec: `types.ProcessEvents` (called by
`preprocess`, abstract.go line 48) is not under src/; §4.1 of the spec
makes normalization and type inference total ("Everything else →
STRING"), so the batch-header computation always succeeds. -/
def ProcessEvents (_tableName : String) (obj : EventObject) :
    Except String EventObject :=
  .ok obj

/-- `AbstractSQLStream.preprocess` (abstract.go, lines 44-60): reject
when the status is not Active, compute the batch header, and count the
accepted object in `processedRows`. -/
def preprocess (tableName : String) (s : StreamState) (obj : EventObject) :
    Option EventObject × StreamState × Option String :=
  if s.status ≠ .Active then
    (none, s, some ("stream is not active. Status: " ++ s.status.text))
  else
    match ProcessEvents tableName obj with
    | .error e => (none, s, some e)
    | .ok header =>
      (some header, { s with processedRows := s.processedRows + 1 }, none)

/-- `AbstractSQLStream.postConsume` (abstract.go, lines 62-71): a failed
per-object processing records `errorRowIndex`/`lastError` and returns
the error; success counts the row in `successfulRows`. -/
def postConsume (s : StreamState) (err : Option String) :
    StreamState × Option String :=
  match err with
  | some e =>
    ({ s with errorRowIndex := s.processedRows, lastError := some e }, some e)
  | none => ({ s with successfulRows := s.successfulRows + 1 }, none)

/-- `AbstractSQLStream.postComplete` (abstract.go, lines 73-81): a fatal
commit error moves the stream to Failed, success to Completed. -/
def postComplete (s : StreamState) (err : Option String) :
    StreamState × Option String :=
  match err with
  | some e => ({ s with lastError := some e, status := .Failed }, some e)
  | none => ({ s with status := .Completed }, none)

/-- Modelled from the spec: the per-mode `Consume` implementations are
not under src/; §4.4 gives their shared shape — run `preprocess`,
return its error unchanged on failure, otherwise process the object
(`processErr` is the outcome of that mode-specific step) and run
`postConsume`. -/
def consume (tableName : String) (s : StreamState) (obj : EventObject)
    (processErr : Option String) : StreamState × Option String :=
  match preprocess tableName s obj with
  | (_, s1, some e) => (s1, some e)
  | (_, s1, none) => postConsume s1 processErr

/-- The state transitions the abstract stream performs. -/
inductive StreamOp where
  | consumeOp (obj : EventObject) (processErr : Option String)
  | completeOp (err : Option String)
  deriving Repr

/-- Apply one transition to the stream state. -/
def applyOp (tableName : String) (s : StreamState) : StreamOp → StreamState
  | .consumeOp obj perr => (consume tableName s obj perr).1
  | .completeOp err => (postComplete s err).1

/-- C6: For every stream, once the status is any terminal value
(Completed, Failed, or Aborted), it never returns to Active, and every
subsequent Consume call fails with a stream-inactive error while leaving
the stream state unchanged (in particular processedRows, successfulRows,
and the status are not modified by a Consume on a non-Active stream). -/
theorem terminal_status_sticky (tableName : String) (s : StreamState)
    (h : s.status ≠ .Active) :
    (∀ obj processErr, consume tableName s obj processErr
        = (s, some ("stream is not active. Status: " ++ s.status.text)))
    ∧ (∀ op, (applyOp tableName s op).status ≠ .Active) := by
  constructor
  · intro obj processErr
    simp [consume, preprocess, h]
  · intro op
    cases op with
    | consumeOp obj perr =>
      simp [applyOp, consume, preprocess, h]
    | completeOp err =>
      cases err <;> simp [applyOp, postComplete]

/-- Witness for `terminal_status_sticky`: a completed stream with three
processed rows rejects a further Consume without touching its state. -/
theorem terminal_status_sticky_witness :
    consume "events" ⟨.Completed, 3, 3, 0, none⟩ ["a"] none
      = (⟨.Completed, 3, 3, 0, none⟩,
          some ("stream is not active. Status: " ++ Status.text .Completed)) :=
  (terminal_status_sticky "events" ⟨.Completed, 3, 3, 0, none⟩ (by decide)).1 ["a"] none

/-- Run a sequence of Consume calls (each with its object and its
mode-specific processing outcome), returning the final state and how
many of the calls returned an error. -/
def consumeAll (tableName : String) : List (EventObject × Option String) →
    StreamState → StreamState × Nat
  | [], s => (s, 0)
  | (obj, perr) :: rest, s =>
    let (s1, res) := consume tableName s obj perr
    let (s2, n) := consumeAll tableName rest s1
    (s2, (if res.isSome then 1 else 0) + n)

theorem consumeAll_invariant (tableName : String)
    (calls : List (EventObject × Option String)) (s : StreamState)
    (hact : s.status = .Active)
    (hinv : s.processedRows = s.successfulRows + k) :
    (consumeAll tableName calls s).1.processedRows
      = (consumeAll tableName calls s).1.successfulRows
          + (k + (consumeAll tableName calls s).2) := by
  induction calls generalizing s k with
  | nil => simpa [consumeAll] using hinv
  | cons c rest ih =>
    obtain ⟨obj, perr⟩ := c
    cases perr with
    | none =>
      have h1 : consume tableName s obj none
          = ({ s with processedRows := s.processedRows + 1,
                      successfulRows := s.successfulRows + 1 }, none) := by
        simp [consume, preprocess, hact, ProcessEvents, postConsume]
      have := ih { s with processedRows := s.processedRows + 1,
                          successfulRows := s.successfulRows + 1 }
        (k := k) (by simpa using hact) (by simp; omega)
      simp only [consumeAll, h1]
      simpa using this
    | some e =>
      have h1 : consume tableName s obj (some e)
          = ({ s with processedRows := s.processedRows + 1,
                      errorRowIndex := s.processedRows + 1,
                      lastError := some e }, some e) := by
        simp [consume, preprocess, hact, ProcessEvents, postConsume]
      have := ih { s with processedRows := s.processedRows + 1,
                          errorRowIndex := s.processedRows + 1,
                          lastError := some e }
        (k := k + 1) (by simpa using hact) (by simp; omega)
      simp only [consumeAll, h1]
      simp only [Option.isSome_some, if_pos] at this ⊢
      omega

/-- C7: For every stream and every sequence of Consume calls, the
counter equation processedRows = successfulRows + (number of Consume
calls that returned an error) holds after each call: preprocess
increments processedRows exactly once per accepted object, and
postConsume increments successfulRows exactly when the per-object
processing returned no error, recording lastError and errorRowIndex
otherwise. -/
theorem processed_eq_successful_add_errors (tableName : String)
    (calls : List (EventObject × Option String)) :
    ((consumeAll tableName calls initialStreamState).1.processedRows
        = (consumeAll tableName calls initialStreamState).1.successfulRows
            + (consumeAll tableName calls initialStreamState).2)
    ∧ (∀ s obj e, s.status = .Active →
        consume tableName s obj (some e)
          = ({ s with processedRows := s.processedRows + 1,
                      errorRowIndex := s.processedRows + 1,
                      lastError := some e }, some e)) := by
  constructor
  · simpa using consumeAll_invariant tableName calls initialStreamState
      (k := 0) rfl rfl
  · intro s obj e hact
    simp [consume, preprocess, hact, ProcessEvents, postConsume]

/-- Witness for `processed_eq_successful_add_errors`: a failing insert
on an active stream records the error row index at the freshly counted
row. -/
theorem processed_eq_successful_add_errors_witness :
    consume "events" ⟨.Active, 2, 2, 0, none⟩ ["a"] (some "insert failed")
      = (⟨.Active, 3, 2, 3, some "insert failed"⟩, some "insert failed") :=
  (processed_eq_successful_add_errors "events" []).2
    ⟨.Active, 2, 2, 0, none⟩ ["a"] "insert failed" rfl

end StreamState

/-! ## C5: BigQuery.CreateStream mode gating

`BigQuery.CreateStream` (src/bulkerlib/implementations/sql/bigquery.go,
lines 128-143) rejects the row-at-a-time mode (`bulker.Stream`) with
`BigQueryAutocommitUnsupported` and dispatches the other three modes to
the per-mode stream constructors. -/

section CreateStream

/-- `bulker.BulkMode`: `Stream` is the row-at-a-time (auto-commit) mode,
`Batch` the transactional mode. -/
inductive BulkMode where
  | Stream
  | Batch
  | ReplaceTable
  | ReplacePartition
  deriving DecidableEq, Repr

/-- `BigQueryAutocommitUnsupported` (bigquery.go, line 34). -/
def BigQueryAutocommitUnsupported : String :=
  "BigQuery bulker doesn't support auto commit mode as not efficient"

/-- The result of folding a stream-option list (`bulker.StreamOptions`):
the fields the abstract stream constructor reads. -/
structure StreamOptions where
  mergeRows : Bool := false
  primaryKey : List String := []
  localBatchFile : Option String := none
  deriving DecidableEq, Repr

/-- An opened stream, carrying the pieces `newAbstractStream` installs
(abstract.go, lines 28-42). -/
structure OpenedStream where
  id : String
  tableName : String
  mode : BulkMode
  merge : Bool
  state : StreamState
  deriving DecidableEq, Repr

/-- `newAbstractStream` (src/implementations/sql/abstract.go, lines
28-42): option validation — `MergeRows` without a primary key is
rejected — then an Active state. -/
def newAbstractStream (id tableName : String) (mode : BulkMode)
    (opts : StreamOptions) : Except String OpenedStream :=
  if opts.mergeRows ∧ opts.primaryKey = [] then
    .error ("MergeRows option requires primary key in the destination table. "
      ++ "Please provide WithPrimaryKey option")
  else
    .ok ⟨id, tableName, mode, opts.mergeRows, initialStreamState⟩

/-- Modelled from the spec: `newTransactionalStream` is not under src/;
§4.4 has each mode constructor build on the shared abstract stream
(whose validation is `newAbstractStream` above) and succeed otherwise. -/
def newTransactionalStream (id tableName : String) (opts : StreamOptions) :
    Except String OpenedStream :=
  newAbstractStream id tableName .Batch opts

/-- Modelled from the spec: `newReplaceTableStream` is not under src/;
same construction for the full-snapshot mode. -/
def newReplaceTableStream (id tableName : String) (opts : StreamOptions) :
    Except String OpenedStream :=
  newAbstractStream id tableName .ReplaceTable opts

/-- Modelled from the spec: `newReplacePartitionStream` is not under
src/; same construction for the partition-snapshot mode. -/
def newReplacePartitionStream (id tableName : String) (opts : StreamOptions) :
    Except String OpenedStream :=
  newAbstractStream id tableName .ReplacePartition opts

/-- `BigQuery.CreateStream` (bigquery.go, lines 128-143): append the
local-batch-file option, reject `Stream` mode, dispatch the rest. -/
def bqCreateStream (id tableName : String) (mode : BulkMode)
    (opts : StreamOptions) : Except String OpenedStream :=
  let opts1 := { opts with localBatchFile := some ("bulker_" ++ id) }
  match mode with
  | .Stream => .error BigQueryAutocommitUnsupported
  | .Batch => newTransactionalStream id tableName opts1
  | .ReplaceTable => newReplaceTableStream id tableName opts1
  | .ReplacePartition => newReplacePartitionStream id tableName opts1

/-- C5 counterexample: the claim "the other three modes
(Batch/Transactional, ReplaceTable, ReplacePartition) return a stream
without error" fails for every option list: Batch mode with
`WithMergeRows` and no primary key is rejected at stream creation
(`newAbstractStream`, abstract.go lines 35-37). -/
theorem bq_create_stream_merge_counterexample :
    bqCreateStream "id1" "events" .Batch ⟨true, [], none⟩
      = .error ("MergeRows option requires primary key in the destination table. "
          ++ "Please provide WithPrimaryKey option") := by
  rfl

/-- C5 amended: For every stream id, table name, and option list that
passes option validation (WithMergeRows implies a declared primary key),
calling CreateStream on the BigQuery adapter with the row-at-a-time
stream mode (Stream / AutoCommit) returns a nil stream and an error,
i.e. the unsupported mode is rejected at stream creation, before any
record is consumed; the other three modes (Batch/Transactional,
ReplaceTable, ReplacePartition) return a stream without error. -/
theorem bq_create_stream_modes (id tableName : String) (opts : StreamOptions)
    (hvalid : opts.mergeRows = true → opts.primaryKey ≠ []) :
    bqCreateStream id tableName .Stream opts = .error BigQueryAutocommitUnsupported
    ∧ (bqCreateStream id tableName .Batch opts).isOk
    ∧ (bqCreateStream id tableName .ReplaceTable opts).isOk
    ∧ (bqCreateStream id tableName .ReplacePartition opts).isOk := by
  have hv : ¬(opts.mergeRows = true ∧ opts.primaryKey = []) := by
    rintro ⟨hm, hp⟩; exact hvalid hm hp
  refine ⟨rfl, ?_, ?_, ?_⟩ <;>
    simp [bqCreateStream, newTransactionalStream, newReplaceTableStream,
      newReplacePartitionStream, newAbstractStream, hv, Except.isOk, Except.toBool]

/-- Witness for `bq_create_stream_modes`: merge rows declared together
with a primary key. -/
theorem bq_create_stream_modes_witness :
    bqCreateStream "id1" "events" .Stream ⟨true, ["id"], none⟩
        = .error BigQueryAutocommitUnsupported
      ∧ (bqCreateStream "id1" "events" .Batch ⟨true, ["id"], none⟩).isOk
      ∧ (bqCreateStream "id1" "events" .ReplaceTable ⟨true, ["id"], none⟩).isOk
      ∧ (bqCreateStream "id1" "events" .ReplacePartition ⟨true, ["id"], none⟩).isOk :=
  bq_create_stream_modes "id1" "events" ⟨true, ["id"], none⟩ (fun _ h => by simp at h)

end CreateStream

/-! ## C10: BigQuery.Insert chunking

`BigQuery.Insert` (src/bulkerlib/implementations/sql/bigquery.go lines
471-511, identical loop in src/unnamed/part_002 lines 382-424) walks the
object list, flushing the accumulated `items` slice to `insertItems`
when `len(items) > rowsLimitPerInsertOperation` *before* appending the
next object, and flushes the non-empty remainder after the loop. -/

section InsertChunks

variable {α : Type}

/-- `rowsLimitPerInsertOperation` (part_002 line 34,
`bigqueryRowsLimitPerInsertOperation` in bigquery.go line 44). -/
def rowsLimitPerInsertOperation : Nat := 500

/-- The loop of `BigQuery.Insert`: `items` is the accumulator; the
returned list collects, in order, every slice passed to `insertItems`. -/
def bqInsertLoop : List α → List α → List (List α)
  | [], items => if items.length > 0 then [items] else []
  | object :: rest, items =>
    if items.length > rowsLimitPerInsertOperation then
      -- flush, reset, then append the current object
      items :: bqInsertLoop rest [object]
    else
      bqInsertLoop rest (items ++ [object])

/-- The chunks `BigQuery.Insert` hands to `insertItems` for a given
object list (`items` starts empty). -/
def bqInsertChunks (objects : List α) : List (List α) :=
  bqInsertLoop objects []

/-- Every chunk concatenated in order reproduces the input: each object
is passed to `insertItems` exactly once, in consumption order. -/
theorem bqInsertLoop_join (objects items : List α) :
    (bqInsertLoop objects items).flatten = items ++ objects := by
  induction objects generalizing items with
  | nil =>
    by_cases h : items.length > 0
    · simp [bqInsertLoop, h]
    · have : items = [] := List.eq_nil_of_length_eq_zero (by omega)
      simp [bqInsertLoop, h, this]
  | cons o rest ih =>
    by_cases h : items.length > rowsLimitPerInsertOperation <;>
      simp [bqInsertLoop, h, ih]

/-- As long as the accumulator never exceeds the flush threshold, the
loop emits a single chunk holding everything. -/
theorem bqInsertLoop_single (objects : List α) : ∀ items : List α,
    items.length + objects.length ≤ rowsLimitPerInsertOperation + 1 →
    (objects ≠ [] → items.length ≤ rowsLimitPerInsertOperation) →
    0 < items.length + objects.length →
    bqInsertLoop objects items = [items ++ objects] := by
  induction objects with
  | nil =>
    intro items _ _ hne
    have hpos : items.length > 0 := by simpa using hne
    simp [bqInsertLoop, hpos]
  | cons o rest ih =>
    intro items hlen hitems _
    simp only [List.length_cons] at hlen
    have hbound : items.length ≤ rowsLimitPerInsertOperation := hitems (by simp)
    have h1 : ¬(items.length > rowsLimitPerInsertOperation) := by omega
    rw [bqInsertLoop, if_neg h1, ih (items ++ [o])
      (by simp only [List.length_append, List.length_singleton]; omega)
      (fun hrest => by
        have : 1 ≤ rest.length := List.length_pos.mpr hrest
        simp only [List.length_append, List.length_singleton]
        omega)
      (by simp)]
    simp

/-- C10: the consecutive in-order partition holds, but the chunk bound
does not: on 501 objects the single chunk passed to `insertItems` holds
501 items, exceeding `rowsLimitPerInsertOperation` (the flush condition
`len(items) > 500` is checked before appending, so a chunk grows to 501
before it is flushed; the source's own comment says "1 insert = max 500
rows"). -/
theorem bq_insert_chunk_overflow :
    ((bqInsertChunks (List.range 501)).map List.length = [501])
      ∧ (bqInsertChunks (List.range 501)).flatten = List.range 501
      ∧ 501 > rowsLimitPerInsertOperation := by
  have hsingle : bqInsertChunks (List.range 501) = [List.range 501] := by
    have := bqInsertLoop_single (α := ℕ) (List.range 501) []
      (by simp [rowsLimitPerInsertOperation])
      (fun _ => by simp) (by simp)
    simpa [bqInsertChunks] using this
  refine ⟨?_, ?_, by decide⟩
  · rw [hsingle]; simp
  · rw [hsingle]; simp

end InsertChunks

/-! ## C9: Postgres.LoadTable CSV handling

`Postgres.LoadTable` (src/unnamed/part_001, lines 276-339) prepares a
`COPY table(columns...) FROM STDIN` statement over the table's sorted
column names, opens the staging file as CSV, skips the first record
(the header), and binds each further record's fields positionally,
turning the literal `\N` into SQL NULL. -/

section PGLoadTable

/-- `LoadSource.Format`. -/
inductive FileFormat where
  | CSV
  | NDJSON
  deriving DecidableEq, Repr

/-- `LoadSource.Type`. -/
inductive LoadSourceType where
  | LocalFile
  | GCSBucket
  deriving DecidableEq, Repr

/-- A staging file already split into CSV records (the `encoding/csv`
reader is external to the repository; RFC-4180 parsing happens there). -/
structure LoadSource where
  type_ : LoadSourceType
  format : FileFormat
  records : List (List String)
  deriving DecidableEq, Repr

/-- Lexicographic (codepoint-wise, as in Go's `sort.Strings`) string
order, as an executable Bool. -/
def lexLe : List Char → List Char → Bool
  | [], _ => true
  | _ :: _, [] => false
  | a :: as, b :: bs => if a = b then lexLe as bs else decide (a.toNat < b.toNat)

/-- Insert a string into a lexicographically sorted list. -/
def insertSorted (x : String) : List String → List String
  | [] => [x]
  | y :: ys => if lexLe x.data y.data then x :: y :: ys else y :: insertSorted x ys

/-- Lexicographic insertion sort over strings. -/
def sortStrings : List String → List String
  | [] => []
  | x :: xs => insertSorted x (sortStrings xs)

/-- Modelled from the spec: `Table.SortedColumnNames` is not under src/;
§3 has the Table carry an ordered column map whose sorted name list the
adapters iterate.  Sort the column names lexicographically. -/
def sortedColumnNames (t : Table) : List String :=
  sortStrings (t.columns.map (·.1))

/-- One bound COPY argument: `nil` for the `\N` marker, the literal
field text otherwise (part_001, lines 321-328). -/
def pgBindField (v : String) : Option String :=
  if v = "\\N" then none else some v

/-- `Postgres.LoadTable` (part_001, lines 276-339): on success, returns
the text of the COPY statement's column list and, in execution order,
the argument vector of every `stmt.ExecContext` row. -/
def pgLoadTable (targetTable : Table) (loadSource : LoadSource) :
    Except String (List String × List (List (Option String))) :=
  if loadSource.type_ ≠ .LocalFile then
    .error "LoadTable: only local file is supported"
  else if loadSource.format ≠ .CSV then
    .error "LoadTable: only CSV format is supported"
  else
    let headerWithQuotes := (sortedColumnNames targetTable).map
      (fun name => "\"" ++ name ++ "\"")
    -- reader.Read() skips the header record, then each record is bound
    let rows := (loadSource.records.drop 1).map (fun record => record.map pgBindField)
    .ok (headerWithQuotes, rows)

/-- C9: For every staging file in CSV format loaded by
Postgres.LoadTable, the first line is skipped as the header, and every
data field whose literal content is \N is bound as SQL NULL while every
other field is bound as its literal string value, with fields passed to
the COPY statement in the table's sorted column order. -/
theorem pg_load_table_csv (t : Table) (src : LoadSource)
    (htype : src.type_ = .LocalFile) (hfmt : src.format = .CSV) :
    pgLoadTable t src
      = .ok ((sortedColumnNames t).map (fun name => "\"" ++ name ++ "\""),
          (src.records.drop 1).map (fun record =>
            record.map (fun v => if v = "\\N" then none else some v))) := by
  unfold pgLoadTable
  rw [if_neg (by simp [htype]), if_neg (by simp [hfmt])]
  rfl

/-- Witness for `pg_load_table_csv`: a two-column table with a header
record and two data records, one of them carrying the null marker. -/
theorem pg_load_table_csv_witness :
    pgLoadTable ⟨"events", [("id", "bigint"), ("a", "text")], [], ""⟩
        ⟨.LocalFile, .CSV, [["a", "id"], ["x", "1"], ["\\N", "2"]]⟩
      = .ok (["\"a\"", "\"id\""],
          [[some "x", some "1"], [none, some "2"]]) := by
  have h := pg_load_table_csv ⟨"events", [("id", "bigint"), ("a", "text")], [], ""⟩
    ⟨.LocalFile, .CSV, [["a", "id"], ["x", "1"], ["\\N", "2"]]⟩ rfl rfl
  rw [h]
  exact congrArg Except.ok (by decide)

end PGLoadTable

/-! ## C1: ClickHouse.LoadTable atomicity

`ClickHouse.LoadTable` (src/unnamed/part_000, lines 459-548) opens a
`database/sql` transaction, prepares one INSERT statement, and replays
the staging file line by line: JSON-decode the line, run `convertType`
on each column value, execute the statement.  Any error triggers the
deferred `tx.Rollback()`; only reaching the end commits.  The embedding
threads the transaction's pending rows explicitly: rows executed inside
the transaction become visible in the destination table only at
`tx.Commit()`. -/

section ChLoadTable

/-- A Go runtime value as it reaches `convertType` after JSON decoding:
the cases of the type switches in part_000 lines 683-748.  Go `float64`
is modelled as a rational number. -/
inductive GoValue where
  | goNull
  | goBool (b : Bool)
  | goInt (n : Int)
  | goInt64 (n : Int)
  | goFloat (q : ℚ)
  | goString (s : String)
  | goTime (year month day hour minute second : Nat)
  | goOther
  deriving DecidableEq, Repr

/-- `SQLColumn` (types.SQLColumn): dialect type and override flag. -/
structure SQLColumn where
  type_ : String
  override : Bool := false
  deriving DecidableEq, Repr

/-- ASCII lowering of one character (model of Go's strings.ToLower for
the ASCII dialect-type names involved here). -/
def lowerChar (c : Char) : Char :=
  if 65 ≤ c.toNat ∧ c.toNat ≤ 90 then Char.ofNat (c.toNat + 32) else c

/-- `strings.ToLower`. -/
def lowerString (s : String) : String :=
  ⟨s.data.map lowerChar⟩

/-- Numeric value of a digit run. -/
def digitsVal (ds : List Char) : Nat :=
  ds.foldl (fun a c => a * 10 + (c.toNat - 48)) 0

/-- Model of `strconv.Atoi`: optional sign, then a non-empty digit run
(overflow is not modelled; the claims do not depend on it). -/
def goAtoi (s : String) : Except String Int :=
  let signed : Int × List Char :=
    match s.data with
    | '+' :: r => (1, r)
    | '-' :: r => (-1, r)
    | r => (1, r)
  if signed.2 ≠ [] ∧ signed.2.all Char.isDigit then
    .ok (signed.1 * (digitsVal signed.2 : Int))
  else .error "invalid syntax"

/-- Model of `strconv.ParseFloat` on the plain decimal subset
`[sign] digits [. digits]` (exponents, hex and inf/NaN forms are not
modelled; the claims do not depend on them). -/
def goParseFloat (s : String) : Except String ℚ :=
  let signed : ℚ × List Char :=
    match s.data with
    | '+' :: r => (1, r)
    | '-' :: r => (-1, r)
    | r => (1, r)
  let intPart := signed.2.takeWhile (· ≠ '.')
  let rest := signed.2.drop intPart.length
  let fracPart := rest.drop 1
  if (intPart ≠ [] ∨ fracPart ≠ []) ∧ intPart.all Char.isDigit
      ∧ fracPart.all Char.isDigit then
    .ok (signed.1 * ((digitsVal intPart : ℚ)
      + (digitsVal fracPart : ℚ) / ((10 : ℚ) ^ fracPart.length)))
  else .error "invalid syntax"

/-- `strconv.ParseBool` accepts exactly these forms. -/
def goParseBool (s : String) : Except String Bool :=
  if s = "1" ∨ s = "t" ∨ s = "T" ∨ s = "TRUE" ∨ s = "true" ∨ s = "True" then .ok true
  else if s = "0" ∨ s = "f" ∨ s = "F" ∨ s = "FALSE" ∨ s = "false" ∨ s = "False" then
    .ok false
  else .error "invalid syntax"

/-- Left-pad a decimal rendering to two digits. -/
def pad2 (n : Nat) : String :=
  if n < 10 then "0" ++ toString n else toString n

/-- Left-pad a decimal rendering to four digits. -/
def pad4 (n : Nat) : String :=
  if n < 10 then "000" ++ toString n
  else if n < 100 then "00" ++ toString n
  else if n < 1000 then "0" ++ toString n
  else toString n

/-- `time.Time.Format("2006-01-02 15:04:05Z")`. -/
def formatDateTime (year month day hour minute second : Nat) : String :=
  pad4 year ++ "-" ++ pad2 month ++ "-" ++ pad2 day ++ " "
    ++ pad2 hour ++ ":" ++ pad2 minute ++ ":" ++ pad2 second ++ "Z"

/-- Modelled from the spec: `types.ReformatValue` is not under src/;
§4.1 normalizes Go runtime kinds before typing, and `GoValue` already
carries values in normalized form, so the normalization is the
identity here. -/
def ReformatValue (value : GoValue) : GoValue := value

/-- `convertType` (src/unnamed/part_000, lines 683-748): coerce a
decoded value to the column's ClickHouse type, switching on the
lower-cased dialect type and then on the value's runtime type.  Any
unmatched combination passes the value through unchanged; parse
failures are errors (except in the `uint8` case, which falls through on
a parse failure exactly as the source does). -/
def convertType (value : GoValue) (column : SQLColumn) : Except String GoValue :=
  let v := ReformatValue value
  match lowerString column.type_ with
  | "float64" =>
    match v with
    | .goInt64 n => .ok (.goFloat (n : ℚ))
    | .goInt n => .ok (.goFloat (n : ℚ))
    | .goString s =>
      match goParseFloat s with
      | .ok f => .ok (.goFloat f)
      | .error e => .error ("error converting string to float64: " ++ e)
    | _ => .ok v
  | "int64" =>
    match v with
    | .goInt n => .ok (.goInt64 n)
    | .goFloat q =>
      -- n == float64(int64(n)): the float equals its integer truncation
      if q.den = 1 then .ok (.goInt64 q.num)
      else .error "error converting float to int64"
    | .goString s =>
      match goAtoi s with
      | .ok f => .ok (.goInt64 f)
      | .error e => .error ("error converting string to int: " ++ e)
    | _ => .ok v
  | "bool" =>
    match v with
    | .goString s =>
      match goParseBool s with
      | .ok f => .ok (.goBool f)
      | .error e => .error ("error converting string to bool: " ++ e)
    | _ => .ok v
  | "uint8" =>
    match v with
    | .goString s =>
      match goParseBool s with
      | .ok f => .ok (.goBool f)
      | .error _ => .ok v
    | _ => .ok v
  | "string" =>
    match v with
    | .goTime y mo d h mi sec => .ok (.goString (formatDateTime y mo d h mi sec))
    | .goInt64 n => .ok (.goString (toString n))
    | .goFloat q => .ok (.goString (toString q))
    | .goBool b => .ok (.goString (if b then "true" else "false"))
    | _ => .ok v
  | _ => .ok v

/-- A decoded staging-file object: field names to values.  A Go map
lookup on a missing key yields the zero value `nil`. -/
abbrev ChObject := List (String × GoValue)

/-- `object[v]` with Go map semantics. -/
def objGet : ChObject → String → GoValue
  | [], _ => .goNull
  | (k, v) :: rest, name => if k = name then v else objGet rest name

/-- A destination-table row, one converted value per sorted column. -/
abbrev ChRow := List GoValue

/-- The `database/sql` transaction: rows executed inside it are pending
and become visible only on commit. -/
structure ChTx where
  pending : List ChRow
  deriving DecidableEq, Repr

/-- `stmt.ExecContext` inside the transaction appends the bound row to
the transaction's pending set. -/
def txExec (tx : ChTx) (args : ChRow) : ChTx :=
  { pending := tx.pending ++ [args] }

/-- The per-line argument vector: `convertType(object[v], columns[v])`
for each sorted column (part_000, lines 525-533). -/
def convertRow : List (String × SQLColumn) → ChObject → Except String ChRow
  | [], _ => .ok []
  | (v, col) :: rest, obj =>
    match convertType (objGet obj v) col with
    | .error e => .error e
    | .ok l =>
      match convertRow rest obj with
      | .error e => .error e
      | .ok ls => .ok (l :: ls)

/-- The scanner loop of `ClickHouse.LoadTable`: each staging-file line
is either a decoded object or a JSON-decoder error; `execRes` is the
driver's verdict on each executed statement (`checkErr` wraps a
non-nil driver error).  The first error aborts the loop. -/
def chLoadLoop (execRes : ChRow → Option String) (cols : List (String × SQLColumn)) :
    List (Except String ChObject) → ChTx → Except String ChTx
  | [], tx => .ok tx
  | line :: rest, tx =>
    match line with
    | .error e => .error e
    | .ok obj =>
      match convertRow cols obj with
      | .error e => .error e
      | .ok args =>
        match execRes args with
        | some e => .error e
        | none => chLoadLoop execRes cols rest (txExec tx args)

/-- `ClickHouse.LoadTable` (part_000, lines 459-548) over a destination
table state: run the loop inside a fresh transaction; on any error the
deferred `tx.Rollback()` discards the pending rows and the destination
is untouched; on success `tx.Commit()` (whose own outcome is
`commitOk`) publishes the pending rows. -/
def chLoadTable (execRes : ChRow → Option String) (cols : List (String × SQLColumn))
    (lines : List (Except String ChObject)) (commitOk : Bool)
    (table : List ChRow) : Except String Unit × List ChRow :=
  match chLoadLoop execRes cols lines ⟨[]⟩ with
  | .error e => (.error e, table)
  | .ok tx => if commitOk then (.ok (), table ++ tx.pending)
    else (.error "failed to commit", table)

/-- Independent specification of the batch contents: decode and convert
every line. -/
def decodeConvertAll (cols : List (String × SQLColumn)) :
    List (Except String ChObject) → Except String (List ChRow)
  | [] => .ok []
  | line :: rest =>
    match line with
    | .error e => .error e
    | .ok obj =>
      match convertRow cols obj with
      | .error e => .error e
      | .ok r =>
        match decodeConvertAll cols rest with
        | .error e => .error e
        | .ok rs => .ok (r :: rs)

theorem chLoadLoop_ok (execRes : ChRow → Option String)
    (cols : List (String × SQLColumn)) (lines : List (Except String ChObject)) :
    ∀ tx tx', chLoadLoop execRes cols lines tx = .ok tx' →
      ∃ rows, decodeConvertAll cols lines = .ok rows
        ∧ tx'.pending = tx.pending ++ rows
        ∧ ∀ r ∈ rows, execRes r = none := by
  induction lines with
  | nil =>
    intro tx tx' h
    simp only [chLoadLoop] at h
    cases h
    exact ⟨[], rfl, by simp, by simp⟩
  | cons line rest ih =>
    intro tx tx' h
    simp only [chLoadLoop] at h
    cases line with
    | error e => simp at h
    | ok obj =>
      simp only at h
      cases hconv : convertRow cols obj with
      | error e => rw [hconv] at h; simp at h
      | ok args =>
        rw [hconv] at h
        simp only at h
        cases hexec : execRes args with
        | some e => rw [hexec] at h; simp at h
        | none =>
          rw [hexec] at h
          simp only at h
          obtain ⟨rows, hrows, hpend, hexecall⟩ := ih (txExec tx args) tx' h
          refine ⟨args :: rows, ?_, ?_, ?_⟩
          · simp only [decodeConvertAll, hconv, hrows]
          · simp only [hpend, txExec]
            simp
          · intro r hr
            rcases List.mem_cons.mp hr with hh | ht
            · subst hh; exact hexec
            · exact hexecall r ht

/-- C1: the commit performed by LoadTable is atomic with respect to the
destination table: if the load (and the commit) succeeds, all consumed
rows are present in the destination, in order; if any step of the load
fails — a per-line JSON decode, a convertType coercion, a statement
execution, or the commit itself — the destination table's contents are
unchanged, because every INSERT runs inside the single transaction that
is rolled back. -/
theorem ch_load_table_atomic (execRes : ChRow → Option String)
    (cols : List (String × SQLColumn)) (lines : List (Except String ChObject))
    (commitOk : Bool) (table : List ChRow) :
    (∀ e, (chLoadTable execRes cols lines commitOk table).1 = .error e →
        (chLoadTable execRes cols lines commitOk table).2 = table)
    ∧ ((chLoadTable execRes cols lines commitOk table).1 = .ok () →
        ∃ rows, decodeConvertAll cols lines = .ok rows
          ∧ (chLoadTable execRes cols lines commitOk table).2 = table ++ rows
          ∧ ∀ r ∈ rows, execRes r = none) := by
  constructor
  · intro e herr
    unfold chLoadTable at herr ⊢
    cases hloop : chLoadLoop execRes cols lines ⟨[]⟩ with
    | error e' => rfl
    | ok tx =>
      cases commitOk with
      | true => rw [hloop] at herr; simp at herr
      | false => rfl
  · intro hok
    unfold chLoadTable at hok ⊢
    cases hloop : chLoadLoop execRes cols lines ⟨[]⟩ with
    | error e' => rw [hloop] at hok; simp at hok
    | ok tx =>
      cases commitOk with
      | false => rw [hloop] at hok; simp at hok
      | true =>
        obtain ⟨rows, hrows, hpend, hexecall⟩ := chLoadLoop_ok execRes cols lines ⟨[]⟩ tx hloop
        refine ⟨rows, hrows, ?_, hexecall⟩
        simp at hpend
        simp [hpend]

/-- Witness for `ch_load_table_atomic`: a staging file whose second
line fails to decode leaves the pre-existing destination row alone. -/
theorem ch_load_table_atomic_witness :
    (chLoadTable (fun _ => none) [("a", ⟨"int64", false⟩)]
        [.ok [("a", .goInt 1)], .error "bad json"] true [[.goInt64 5]]).2
      = [[.goInt64 5]] :=
  (ch_load_table_atomic (fun _ => none) [("a", ⟨"int64", false⟩)]
      [.ok [("a", .goInt 1)], .error "bad json"] true [[.goInt64 5]]).1
    "bad json" rfl

end ChLoadTable

/-! ## C8: BigQuery identifier normalization

`tableNameFunc` and `columnNameFunc`
(src/bulkerlib/implementations/sql/bigquery.go, lines 899-932).  Go
strings are embedded as `List Char`; the two regexes
`bigqueryColumnUnsupportedCharacters = [^0-9A-Za-z_]` and
`bigqueryColumnUndescores = _{2,}` become a character filter and an
underscore-run collapse. -/

section IdentifierNames

/-- A character the `[^0-9A-Za-z_]` regex keeps: `_`, a digit, or an
ASCII letter (stated on code points: 95, 48-57, 65-90, 97-122). -/
def isSafeChar (c : Char) : Bool :=
  c.toNat = 95 || (48 ≤ c.toNat && c.toNat ≤ 57)
    || (65 ≤ c.toNat && c.toNat ≤ 90) || (97 ≤ c.toNat && c.toNat ≤ 122)

/-- `bigqueryColumnUnsupportedCharacters.ReplaceAllString(s, "")`. -/
def stripUnsupported (s : List Char) : List Char :=
  s.filter isSafeChar

/-- `strings.ReplaceAll(identifier, " ", "_")`. -/
def replaceSpaces (s : List Char) : List Char :=
  s.map (fun c => if c = ' ' then '_' else c)

/-- `bigqueryColumnUndescores.ReplaceAllString(s, "_")`: collapse each
run of two or more underscores to one. -/
def collapseUnderscores : List Char → List Char
  | [] => []
  | c :: rest =>
    if c = '_' ∧ rest.headD 'x' = '_' then collapseUnderscores rest
    else c :: collapseUnderscores rest

/-- Whether the string contains two adjacent underscores. -/
def hasDoubleUS : List Char → Bool
  | [] => false
  | c :: rest => (c = '_' && rest.headD 'x' = '_') || hasDoubleUS rest

/-- ASCII lowering of a whole identifier (`strings.ToLower`). -/
def toLowerList (s : List Char) : List Char :=
  s.map lowerChar

/-- `utils.IsNumber` on the leading byte: an ASCII digit. -/
def goIsNumber (c : Char) : Bool :=
  48 ≤ c.toNat && c.toNat ≤ 57

/-- Modelled from the spec: `utils.ShortenString` is not under src/;
§4.2's identifier policy clamps the length, keeping the leading
characters. -/
def shortenString (s : List Char) (maxLen : Nat) : List Char :=
  s.take maxLen

/-- Modelled from the spec: `utils.HashString` is not under src/; §4.2
falls back to "a hash-suffixed placeholder" for empty or reserved
identifiers.  A 32-bit FNV-1a hash stands in for it. -/
def hashString (s : List Char) : Nat :=
  s.foldl (fun h c => ((h ^^^ c.toNat) * 16777619) % 4294967296) 2166136261

/-- The sixteen lowercase hexadecimal digit characters. -/
def hexDigits : List Char :=
  "0123456789abcdef".data

/-- The hexadecimal digit character for a value below 16. -/
def hexDigit (m : Nat) : Char :=
  hexDigits.getD m '0'

/-- Hex rendering with bounded fuel (eight digits cover 32-bit
values). -/
def natToHexAux : Nat → Nat → List Char
  | 0, _ => []
  | fuel + 1, n => if n = 0 then [] else natToHexAux fuel (n / 16) ++ [hexDigit (n % 16)]

/-- `fmt.Sprintf("%x", n)`: lowercase hex, `"0"` for zero. -/
def natToHex (n : Nat) : List Char :=
  if n = 0 then ['0'] else natToHexAux 8 n

/-- `bigqueryReservedWords` (bigquery.go, line 48). -/
def bigqueryReservedWords : List (List Char) :=
  (["all", "and", "any", "array", "as", "asc", "assert_rows_modified", "at",
    "between", "by", "case", "cast", "collate", "contains", "create", "cross",
    "cube", "current", "default", "define", "desc", "distinct", "else", "end",
    "enum", "escape", "except", "exclude", "exists", "extract", "false",
    "fetch", "following", "for", "from", "full", "group", "grouping",
    "groups", "hash", "having", "if", "ignore", "in", "inner", "intersect",
    "interval", "into", "is", "join", "lateral", "left", "like", "limit",
    "lookup", "merge", "natural", "new", "no", "not", "null", "nulls", "of",
    "on", "or", "order", "outer", "over", "partition", "preceding", "proto",
    "qualify", "range", "recursive", "respect", "right", "rollup", "rows",
    "select", "set", "some", "struct", "tablesample", "then", "to", "treat",
    "true", "unbounded", "union", "unnest", "using", "when", "where",
    "window", "with", "within"]).map String.data

/-- `bigqueryReservedPrefixes` (bigquery.go, line 50). -/
def bigqueryReservedPrefixes : List (List Char) :=
  (["_table_", "_file_", "_partition", "_row_timestamp", "__root__",
    "_colidentifier"]).map String.data

/-- `cleanIdentifier` (bigquery.go, lines 904-905): strip unsupported
characters and collapse underscore runs. -/
def cnfClean (identifier : List Char) : List Char :=
  collapseUnderscores (stripUnsupported identifier)

/-- `result` (bigquery.go, lines 909-912): replace spaces, strip
unsupported characters, and escape a numeric first byte with a leading
underscore. -/
def cnfResult (identifier : List Char) : List Char :=
  if goIsNumber ((stripUnsupported (replaceSpaces identifier)).headD 'x')
  then '_' :: stripUnsupported (replaceSpaces identifier)
  else stripUnsupported (replaceSpaces identifier)

/-- `columnNameFunc` (bigquery.go, lines 903-924). -/
def columnNameFunc (identifier : List Char) : List Char × Bool :=
  if cnfClean identifier = [] ∨ cnfClean identifier = ['_'] then
    ("column_".data ++ natToHex (hashString identifier), false)
  else if toLowerList (cnfResult identifier) ∈ bigqueryReservedWords then
    (cnfResult identifier, true)
  else if bigqueryReservedPrefixes.any
      (fun p => p.isPrefixOf (toLowerList (cnfResult identifier))) then
    (shortenString ('_' :: cnfResult identifier) 300, false)
  else
    (shortenString (cnfResult identifier) 300, false)

/-- Modelled from the spec: `sqlUnquotedIdentifierPattern` is not under
src/; §4.2's reserved-word quoting treats a plain lowercase identifier
as quote-free. -/
def sqlUnquotedIdentifierPattern (s : List Char) : Bool :=
  match s with
  | [] => false
  | c :: rest =>
    (97 ≤ c.toNat && c.toNat ≤ 122 || c.toNat = 95)
      && rest.all (fun d => (97 ≤ d.toNat && d.toNat ≤ 122) || d.toNat = 95
          || (48 ≤ d.toNat && d.toNat ≤ 57))

/-- `tableNameFunc` (bigquery.go, lines 899-901): the identifier is kept
verbatim; only the quoting flag is computed. -/
def tableNameFunc (identifier : List Char) : List Char × Bool :=
  (identifier, !sqlUnquotedIdentifierPattern identifier)

/-! ### Character-level facts -/

theorem toNat_charOfNat (n : Nat) (h : n < 55296) : (Char.ofNat n).toNat = n := by
  unfold Char.ofNat
  rw [dif_pos (Or.inl h)]
  rfl

theorem charEq_iff_toNat {c d : Char} : c = d ↔ c.toNat = d.toNat :=
  ⟨fun h => h ▸ rfl, fun h => Char.ext (UInt32.ext h)⟩

theorem lowerChar_toNat (c : Char) :
    (lowerChar c).toNat
      = if 65 ≤ c.toNat ∧ c.toNat ≤ 90 then c.toNat + 32 else c.toNat := by
  unfold lowerChar
  split_ifs with h
  · exact toNat_charOfNat _ (by omega)
  · rfl

theorem lowerChar_eq_self {c : Char} (h : ¬(65 ≤ c.toNat ∧ c.toNat ≤ 90)) :
    lowerChar c = c :=
  if_neg h

theorem isSafeChar_iff {c : Char} :
    isSafeChar c = true
      ↔ (c.toNat = 95 ∨ (48 ≤ c.toNat ∧ c.toNat ≤ 57)
          ∨ (65 ≤ c.toNat ∧ c.toNat ≤ 90) ∨ (97 ≤ c.toNat ∧ c.toNat ≤ 122)) := by
  simp [isSafeChar]
  omega

theorem isSafeChar_lowerChar {c : Char} (h : isSafeChar c = true) :
    isSafeChar (lowerChar c) = true := by
  rw [isSafeChar_iff] at h ⊢
  rw [lowerChar_toNat]
  split_ifs with hu
  · omega
  · omega

theorem safe_ne_space {c : Char} (h : isSafeChar c = true) : ¬c = ' ' := by
  rw [isSafeChar_iff] at h
  intro hc
  rw [charEq_iff_toNat] at hc
  have : (' ').toNat = 32 := rfl
  omega

theorem safe_ne_us_iff {c : Char} : c ≠ '_' ↔ c.toNat ≠ 95 := by
  have h95 : ('_').toNat = 95 := rfl
  constructor
  · intro h hc; exact h (charEq_iff_toNat.mpr (by omega))
  · intro h hc; rw [charEq_iff_toNat, h95] at hc; exact h hc

/-! ### stripUnsupported, replaceSpaces, collapseUnderscores -/

theorem mem_stripUnsupported {c : Char} {s : List Char}
    (h : c ∈ stripUnsupported s) : c ∈ s ∧ isSafeChar c = true :=
  ⟨(List.mem_filter.mp h).1, (List.mem_filter.mp h).2⟩

theorem stripUnsupported_eq_self {s : List Char}
    (h : ∀ c ∈ s, isSafeChar c = true) : stripUnsupported s = s :=
  List.filter_eq_self.mpr h

theorem replaceSpaces_eq_self {s : List Char} (h : ∀ c ∈ s, ¬c = ' ') :
    replaceSpaces s = s := by
  induction s with
  | nil => rfl
  | cons c rest ih =>
    simp only [replaceSpaces, List.map_cons] at ih ⊢
    rw [if_neg (h c (by simp)), ih (fun d hd => h d (by simp [hd]))]

theorem collapseUnderscores_ne_nil {s : List Char} (h : s ≠ []) :
    collapseUnderscores s ≠ [] := by
  induction s with
  | nil => exact absurd rfl h
  | cons c rest ih =>
    rw [collapseUnderscores]
    split_ifs with hc
    · have hrest : rest ≠ [] := by
        intro hr
        rw [hr] at hc
        exact absurd hc.2 (by decide)
      exact ih hrest
    · simp

theorem collapseUnderscores_eq_self {s : List Char} (h : hasDoubleUS s = false) :
    collapseUnderscores s = s := by
  induction s with
  | nil => rfl
  | cons c rest ih =>
    rw [hasDoubleUS] at h
    simp only [Bool.or_eq_false_iff, Bool.and_eq_false_iff] at h
    rw [collapseUnderscores]
    rw [if_neg ?_, ih h.2]
    rintro ⟨h1, h2⟩
    rcases h.1 with hc | hc
    · exact absurd h1 (by simpa using hc)
    · exact absurd h2 (by simpa using hc)

theorem hasDoubleUS_eq_false {s : List Char} (h : '_' ∉ s) :
    hasDoubleUS s = false := by
  induction s with
  | nil => rfl
  | cons c rest ih =>
    rw [hasDoubleUS]
    have hc : ¬c = '_' := fun hc => h (hc ▸ List.mem_cons_self c rest)
    have : (c = '_' : Bool) = false := by simpa using fun hc' => hc hc'
    rw [this]
    simp only [Bool.false_and, Bool.false_or]
    exact ih (fun hm => h (List.mem_cons_of_mem c hm))

theorem mem_collapseUnderscores {c : Char} (hc : c ≠ '_') {s : List Char}
    (h : c ∈ s) : c ∈ collapseUnderscores s := by
  induction s with
  | nil => simp at h
  | cons a rest ih =>
    rw [collapseUnderscores]
    split_ifs with ha
    · rcases List.mem_cons.mp h with hh | ht
      · exact absurd (hh ▸ ha.1) hc
      · exact ih ht
    · rcases List.mem_cons.mp h with hh | ht
      · exact hh ▸ List.mem_cons_self a _
      · exact List.mem_cons_of_mem a (ih ht)

theorem collapseUnderscores_all_us {s : List Char}
    (h : collapseUnderscores s = ['_']) : ∀ c ∈ s, c = '_' := by
  induction s with
  | nil => simp
  | cons a rest ih =>
    rw [collapseUnderscores] at h
    split_ifs at h with ha
    · intro c hcm
      rcases List.mem_cons.mp hcm with hh | ht
      · exact hh ▸ ha.1
      · exact ih h c ht
    · have h1 : a = '_' ∧ collapseUnderscores rest = [] := by
        have := List.cons.injEq a (collapseUnderscores rest) '_' [] ▸ h
        exact ⟨by injection h, by injection h⟩
      have hrest : rest = [] := by
        by_contra hr
        exact collapseUnderscores_ne_nil hr h1.2
      intro c hcm
      rcases List.mem_cons.mp hcm with hh | ht
      · exact hh ▸ h1.1
      · rw [hrest] at ht; simp at ht

/-! ### toLowerList -/

theorem toLowerList_take (s : List Char) (n : Nat) :
    toLowerList (s.take n) = (toLowerList s).take n :=
  List.map_take lowerChar s n

theorem lowerChar_us : lowerChar '_' = '_' := by decide

theorem toLowerList_cons (c : Char) (s : List Char) :
    toLowerList (c :: s) = lowerChar c :: toLowerList s := rfl

theorem toLowerList_eq_self {s : List Char}
    (h : ∀ c ∈ s, ¬(65 ≤ c.toNat ∧ c.toNat ≤ 90)) : toLowerList s = s := by
  induction s with
  | nil => rfl
  | cons c rest ih =>
    rw [toLowerList_cons, lowerChar_eq_self (h c (by simp)),
      ih (fun d hd => h d (by simp [hd]))]

theorem length_toLowerList (s : List Char) :
    (toLowerList s).length = s.length :=
  List.length_map s lowerChar

/-! ### Hex rendering facts -/

/-- A lowercase hexadecimal digit character. -/
def isHexLowerChar (c : Char) : Bool :=
  (48 ≤ c.toNat && c.toNat ≤ 57) || (97 ≤ c.toNat && c.toNat ≤ 102)

theorem hexDigit_isHexLower (m : Nat) : isHexLowerChar (hexDigit m) = true := by
  unfold hexDigit
  rw [List.getD_eq_getElem?_getD]
  cases h : hexDigits[m]? with
  | none => simp [h]; decide
  | some c =>
    have hc : c ∈ hexDigits := List.getElem?_mem h
    have : ∀ d ∈ hexDigits, isHexLowerChar d = true := by decide
    simp [h]
    exact this c hc

theorem natToHexAux_mem : ∀ fuel n : Nat, ∀ c ∈ natToHexAux fuel n,
    isHexLowerChar c = true := by
  intro fuel
  induction fuel with
  | zero => intro n c hc; simp [natToHexAux] at hc
  | succ f ih =>
    intro n c hc
    rw [natToHexAux] at hc
    split_ifs at hc with h0
    · simp at hc
    · rcases List.mem_append.mp hc with hl | hr
      · exact ih _ c hl
      · rw [List.mem_singleton] at hr
        exact hr ▸ hexDigit_isHexLower _

theorem natToHex_mem {n : Nat} {c : Char} (h : c ∈ natToHex n) :
    isHexLowerChar c = true := by
  unfold natToHex at h
  split_ifs at h with h0
  · rw [List.mem_singleton] at h
    subst h; decide
  · exact natToHexAux_mem 8 n c h

theorem natToHexAux_length : ∀ fuel n : Nat, (natToHexAux fuel n).length ≤ fuel := by
  intro fuel
  induction fuel with
  | zero => intro n; simp [natToHexAux]
  | succ f ih =>
    intro n
    rw [natToHexAux]
    split_ifs with h0
    · simp
    · rw [List.length_append]
      have := ih (n / 16)
      simp
      omega

theorem natToHex_length (n : Nat) : (natToHex n).length ≤ 8 := by
  unfold natToHex
  split_ifs with h0
  · simp
  · exact natToHexAux_length 8 n

theorem isHexLower_safe {c : Char} (h : isHexLowerChar c = true) :
    isSafeChar c = true ∧ c ≠ '_' ∧ ¬(65 ≤ c.toNat ∧ c.toNat ≤ 90) := by
  simp only [isHexLowerChar, Bool.or_eq_true, Bool.and_eq_true, decide_eq_true_eq] at h
  refine ⟨isSafeChar_iff.mpr (by omega), safe_ne_us_iff.mpr (by omega), by omega⟩

/-! ### Reserved-word and reserved-prefix inventories -/

theorem reservedWords_take7 :
    ∀ w ∈ bigqueryReservedWords, w.take 7 ≠ "column_".data := by decide

theorem reservedWords_head :
    ∀ w ∈ bigqueryReservedWords, w.headD ' ' ≠ '_' := by decide

theorem reservedWords_chars :
    ∀ w ∈ bigqueryReservedWords, ∀ c ∈ w,
      (97 ≤ c.toNat ∧ c.toNat ≤ 122) ∨ c.toNat = 95 := by decide

theorem reservedWords_noDouble :
    ∀ w ∈ bigqueryReservedWords, hasDoubleUS w = false := by decide

theorem reservedWords_ne_nil :
    ∀ w ∈ bigqueryReservedWords, w ≠ [] := by decide

theorem reservedWords_short :
    ∀ w ∈ bigqueryReservedWords, w.length < 300 := by decide

theorem reservedPfxs_head :
    ∀ p ∈ bigqueryReservedPrefixes, p.headD ' ' = '_' ∧ p ≠ [] := by decide

theorem reservedPfxs_len :
    ∀ p ∈ bigqueryReservedPrefixes, p.length ≤ 14 := by decide

theorem reservedPfxs_nonus :
    ∀ p ∈ bigqueryReservedPrefixes, p.any (fun c => c ≠ '_') = true := by decide

/-- Prepending one more underscore to a string that starts with a
reserved prefix escapes every reserved prefix. -/
theorem reservedPfxs_no_double :
    ∀ p ∈ bigqueryReservedPrefixes, ∀ p' ∈ bigqueryReservedPrefixes,
      ∀ t : List Char, p'.isPrefixOf ('_' :: (p ++ t)) = false := by
  have hexp : bigqueryReservedPrefixes
      = ["_table_".data, "_file_".data, "_partition".data, "_row_timestamp".data,
         "__root__".data, "_colidentifier".data] := rfl
  intro p hp p' hp' t
  rw [hexp] at hp hp'
  fin_cases hp <;> fin_cases hp' <;>
    simp [List.isPrefixOf]

/-! ### Facts about the normalizer's intermediate values -/

theorem lowerChar_us_iff {c : Char} : lowerChar c = '_' ↔ c = '_' := by
  constructor
  · intro h
    rw [charEq_iff_toNat] at h ⊢
    rw [lowerChar_toNat] at h
    have h95 : ('_').toNat = 95 := rfl
    split_ifs at h with hu
    · omega
    · exact h
  · intro h; rw [h]; exact lowerChar_us

theorem headD_us_toLowerList (s : List Char) :
    ((toLowerList s).headD 'x' = '_') ↔ (s.headD 'x' = '_') := by
  cases s with
  | nil => simp [toLowerList]
  | cons c rest => simpa [toLowerList_cons] using lowerChar_us_iff

theorem hasDoubleUS_toLowerList (s : List Char) :
    hasDoubleUS (toLowerList s) = hasDoubleUS s := by
  induction s with
  | nil => rfl
  | cons c rest ih =>
    rw [toLowerList_cons, hasDoubleUS, hasDoubleUS, ih]
    congr 1
    congr 1
    · exact decide_eq_decide.mpr lowerChar_us_iff
    · exact decide_eq_decide.mpr (headD_us_toLowerList rest)

theorem cnfResult_safe (x : List Char) :
    ∀ c ∈ cnfResult x, isSafeChar c = true := by
  intro c hc
  unfold cnfResult at hc
  split_ifs at hc with hn
  · rcases List.mem_cons.mp hc with hh | ht
    · subst hh; decide
    · exact (mem_stripUnsupported ht).2
  · exact (mem_stripUnsupported hc).2

theorem cnfResult_headD (x : List Char) :
    goIsNumber ((cnfResult x).headD 'x') = false := by
  unfold cnfResult
  split_ifs with hn
  · simp only [List.headD_cons]; decide
  · simpa using hn

theorem cnfResult_ne_nil {x : List Char} (h : cnfClean x ≠ []) :
    cnfResult x ≠ [] := by
  have hstrip : stripUnsupported x ≠ [] := by
    intro hs
    exact h (by rw [cnfClean, hs]; rfl)
  obtain ⟨c, hcx⟩ := List.exists_mem_of_ne_nil _ hstrip
  have hcsafe := (mem_stripUnsupported hcx).2
  have hcmem := (mem_stripUnsupported hcx).1
  have hcrs : c ∈ replaceSpaces x := by
    have : (if c = ' ' then '_' else c) = c := if_neg (safe_ne_space hcsafe)
    exact this ▸ List.mem_map_of_mem _ hcmem
  have hres : stripUnsupported (replaceSpaces x) ≠ [] :=
    List.ne_nil_of_mem (List.mem_filter.mpr ⟨hcrs, hcsafe⟩)
  unfold cnfResult
  split_ifs with hn
  · simp
  · exact hres

theorem cnfResult_of_safe {y : List Char} (hsafe : ∀ c ∈ y, isSafeChar c = true)
    (hhead : goIsNumber (y.headD 'x') = false) : cnfResult y = y := by
  unfold cnfResult
  rw [replaceSpaces_eq_self (fun c hc => safe_ne_space (hsafe c hc)),
    stripUnsupported_eq_self hsafe, if_neg (by rw [hhead]; exact Bool.false_ne_true)]

theorem cnfClean_of_safe {y : List Char} (hsafe : ∀ c ∈ y, isSafeChar c = true) :
    cnfClean y = collapseUnderscores y := by
  rw [cnfClean, stripUnsupported_eq_self hsafe]

theorem not_isPrefixOf_of_head_ne {a b : Char} (h : ¬a = b) (p s : List Char) :
    (a :: p).isPrefixOf (b :: s) = false := by
  simp [List.isPrefixOf_cons₂, h]

/-! ### The four output shapes of columnNameFunc are fixpoints -/

theorem colPrefix_eq : "column_".data = ['c', 'o', 'l', 'u', 'm', 'n', '_'] := rfl

theorem columnNameFunc_fix_hash (n : Nat) :
    columnNameFunc ("column_".data ++ natToHex n)
      = ("column_".data ++ natToHex n, false) := by
  set hx := natToHex n with hhex
  have hhex_safe : ∀ c ∈ hx, isSafeChar c = true :=
    fun c hc => (isHexLower_safe (natToHex_mem hc)).1
  have hhex_nous : '_' ∉ hx :=
    fun hm => (isHexLower_safe (natToHex_mem hm)).2.1 rfl
  have hhex_noup : ∀ c ∈ hx, ¬(65 ≤ c.toNat ∧ c.toNat ≤ 90) :=
    fun c hc => (isHexLower_safe (natToHex_mem hc)).2.2
  have hsafe : ∀ c ∈ "column_".data ++ hx, isSafeChar c = true := by
    intro c hc
    rcases List.mem_append.mp hc with hl | hr
    · rw [colPrefix_eq] at hl
      fin_cases hl <;> decide
    · exact hhex_safe c hr
  have hheadhex : ¬hx.headD 'x' = '_' := by
    cases hhex : hx with
    | nil => decide
    | cons d t =>
      rw [List.headD_cons]
      intro hd
      exact hhex_nous (hhex ▸ (hd ▸ List.mem_cons_self d t))
  have hheadhex' : ¬hx.head?.getD 'x' = '_' := by simpa using hheadhex
  have hnd : hasDoubleUS ("column_".data ++ hx) = false := by
    rw [colPrefix_eq]
    simp only [List.cons_append, List.nil_append, List.append_eq, hasDoubleUS,
      List.headD_cons]
    simp [hasDoubleUS_eq_false hhex_nous, hheadhex']
  have hclean : cnfClean ("column_".data ++ hx) = "column_".data ++ hx := by
    rw [cnfClean_of_safe hsafe, collapseUnderscores_eq_self hnd]
  have h1 : ¬(cnfClean ("column_".data ++ hx) = []
      ∨ cnfClean ("column_".data ++ hx) = ['_']) := by
    rw [hclean, colPrefix_eq]
    rintro (hh | hh) <;> simp at hh
  have hres : cnfResult ("column_".data ++ hx) = "column_".data ++ hx := by
    refine cnfResult_of_safe hsafe ?_
    rw [colPrefix_eq]
    simp only [List.cons_append, List.headD_cons]
    decide
  have hlower : toLowerList ("column_".data ++ hx) = "column_".data ++ hx := by
    refine toLowerList_eq_self ?_
    intro c hc
    rcases List.mem_append.mp hc with hl | hr
    · rw [colPrefix_eq] at hl
      fin_cases hl <;> decide
    · exact hhex_noup c hr
  have h2 : toLowerList (cnfResult ("column_".data ++ hx))
      ∉ bigqueryReservedWords := by
    rw [hres, hlower]
    intro hmem
    refine reservedWords_take7 _ hmem ?_
    rw [List.take_left' (by rw [colPrefix_eq]; rfl)]
  have h3 : bigqueryReservedPrefixes.any
      (fun p => p.isPrefixOf (toLowerList (cnfResult ("column_".data ++ hx))))
        = false := by
    rw [hres, hlower]
    rw [List.any_eq_false]
    intro p hp
    obtain ⟨hhead, hpne⟩ := reservedPfxs_head p hp
    obtain ⟨a, p1, rfl⟩ := List.exists_cons_of_ne_nil hpne
    rw [List.headD_cons] at hhead
    subst hhead
    rw [colPrefix_eq]
    simp only [List.cons_append]
    rw [not_isPrefixOf_of_head_ne (by decide)]
    exact Bool.false_ne_true
  have hshort : shortenString ("column_".data ++ hx) 300 = "column_".data ++ hx := by
    refine List.take_of_length_le ?_
    rw [List.length_append, colPrefix_eq]
    have hlen := natToHex_length n
    rw [← hhex] at hlen
    simp only [List.length_cons, List.length_nil]
    omega
  unfold columnNameFunc
  rw [if_neg h1, if_neg h2, if_neg (by rw [h3]; exact Bool.false_ne_true), hres, hshort]

theorem columnNameFunc_fix_reserved (y : List Char)
    (hsafe : ∀ c ∈ y, isSafeChar c = true)
    (hhead : goIsNumber (y.headD 'x') = false)
    (hw : toLowerList y ∈ bigqueryReservedWords) :
    columnNameFunc y = (y, true) := by
  have hnd : hasDoubleUS y = false := by
    rw [← hasDoubleUS_toLowerList]
    exact reservedWords_noDouble _ hw
  have hclean : cnfClean y = y := by
    rw [cnfClean_of_safe hsafe, collapseUnderscores_eq_self hnd]
  have hyne : y ≠ [] := by
    intro hy
    refine reservedWords_ne_nil _ hw ?_
    rw [hy]; rfl
  have hyus : y ≠ ['_'] := by
    intro hy
    refine reservedWords_head _ hw ?_
    rw [hy]
    rfl
  have h1 : ¬(cnfClean y = [] ∨ cnfClean y = ['_']) := by
    rw [hclean]
    rintro (hh | hh)
    · exact hyne hh
    · exact hyus hh
  have hres : cnfResult y = y := cnfResult_of_safe hsafe hhead
  unfold columnNameFunc
  rw [if_neg h1, hres, if_pos hw]

theorem columnNameFunc_fix_pfx (r : List Char)
    (hsafe : ∀ c ∈ r, isSafeChar c = true)
    (hp : ∃ p ∈ bigqueryReservedPrefixes, p.isPrefixOf (toLowerList r) = true) :
    columnNameFunc (shortenString ('_' :: r) 300)
      = (shortenString ('_' :: r) 300, false) := by
  obtain ⟨p, hpmem, hpp⟩ := hp
  have hpre : p <+: toLowerList r := List.isPrefixOf_iff_prefix.mp hpp
  obtain ⟨t, ht⟩ := hpre
  have hplen : p.length ≤ 14 := reservedPfxs_len p hpmem
  have hy : shortenString ('_' :: r) 300 = '_' :: r.take 299 := rfl
  rw [hy]
  have hsafe_y : ∀ c ∈ '_' :: r.take 299, isSafeChar c = true := by
    intro c hc
    rcases List.mem_cons.mp hc with hh | htk
    · subst hh; decide
    · exact hsafe c (List.take_subset _ _ htk)
  have hlc : toLowerList ('_' :: r.take 299)
      = '_' :: (p ++ t.take (299 - p.length)) := by
    rw [toLowerList_cons, lowerChar_us, toLowerList_take, ← ht]
    congr 1
    rw [List.take_append_eq_append_take, List.take_of_length_le (by omega)]
  have hclean : cnfClean ('_' :: r.take 299)
      = collapseUnderscores ('_' :: r.take 299) := cnfClean_of_safe hsafe_y
  have hc_ne : collapseUnderscores ('_' :: r.take 299) ≠ [] :=
    collapseUnderscores_ne_nil (by simp)
  have hc_us : collapseUnderscores ('_' :: r.take 299) ≠ ['_'] := by
    intro hcu
    have hallus := collapseUnderscores_all_us hcu
    obtain ⟨c0, hc0p, hc0ne⟩ := List.any_eq_true.mp (reservedPfxs_nonus p hpmem)
    have hc0ne' : c0 ≠ '_' := by simpa using hc0ne
    have hc0mem : c0 ∈ toLowerList (r.take 299) := by
      rw [toLowerList_take, ← ht]
      have h1 : c0 ∈ (p ++ t).take p.length := by
        rw [List.take_left' rfl]
        exact hc0p
      have h2 : (p ++ t).take p.length = ((p ++ t).take 299).take p.length := by
        rw [List.take_take, Nat.min_eq_left (by omega)]
      rw [h2] at h1
      exact List.take_subset _ _ h1
    obtain ⟨d, hd, hdc⟩ := List.mem_map.mp hc0mem
    have hdus : d = '_' := hallus d (List.mem_cons_of_mem _ hd)
    rw [hdus, lowerChar_us] at hdc
    exact hc0ne' hdc.symm
  have h1 : ¬(cnfClean ('_' :: r.take 299) = []
      ∨ cnfClean ('_' :: r.take 299) = ['_']) := by
    rw [hclean]
    rintro (hh | hh)
    exacts [hc_ne hh, hc_us hh]
  have hhead_y : goIsNumber (('_' :: r.take 299).headD 'x') = false := by
    rw [List.headD_cons]; decide
  have hres : cnfResult ('_' :: r.take 299) = '_' :: r.take 299 :=
    cnfResult_of_safe hsafe_y hhead_y
  have h2 : toLowerList ('_' :: r.take 299) ∉ bigqueryReservedWords := by
    intro hmem
    refine reservedWords_head _ hmem ?_
    rw [hlc]; rfl
  have h3 : bigqueryReservedPrefixes.any
      (fun q => q.isPrefixOf (toLowerList ('_' :: r.take 299))) = false := by
    rw [List.any_eq_false]
    intro p' hp'
    rw [hlc, reservedPfxs_no_double p hpmem p' hp' _]
    exact Bool.false_ne_true
  have hshort : shortenString ('_' :: r.take 299) 300 = '_' :: r.take 299 := by
    refine List.take_of_length_le ?_
    simp only [List.length_cons, List.length_take]
    omega
  unfold columnNameFunc
  rw [if_neg h1, hres, if_neg h2, if_neg (by rw [h3]; exact Bool.false_ne_true), hshort]

theorem columnNameFunc_fix_default (r : List Char)
    (hsafe : ∀ c ∈ r, isSafeChar c = true) (hne : r ≠ [])
    (hhead : goIsNumber (r.headD 'x') = false)
    (hw : toLowerList r ∉ bigqueryReservedWords)
    (hpfx : bigqueryReservedPrefixes.any
      (fun p => p.isPrefixOf (toLowerList r)) = false)
    (hcl : collapseUnderscores (r.take 300) ≠ ['_']) :
    columnNameFunc (shortenString r 300) = (shortenString r 300, false) := by
  have hsafe_y : ∀ c ∈ r.take 300, isSafeChar c = true :=
    fun c hc => hsafe c (List.take_subset _ _ hc)
  have hyne : r.take 300 ≠ [] := by
    rw [Ne, List.take_eq_nil_iff]
    rintro (hh | hh)
    · exact absurd hh (by omega)
    · exact hne hh
  have hclean : cnfClean (r.take 300) = collapseUnderscores (r.take 300) :=
    cnfClean_of_safe hsafe_y
  have h1 : ¬(cnfClean (r.take 300) = [] ∨ cnfClean (r.take 300) = ['_']) := by
    rw [hclean]
    rintro (hh | hh)
    · exact collapseUnderscores_ne_nil hyne hh
    · exact hcl hh
  obtain ⟨a, r1, rfl⟩ := List.exists_cons_of_ne_nil hne
  have htk : (a :: r1).take 300 = a :: r1.take 299 := rfl
  have hhead_y : goIsNumber (((a :: r1).take 300).headD 'x') = false := by
    rw [htk, List.headD_cons]
    rw [List.headD_cons] at hhead
    exact hhead
  have hres : cnfResult ((a :: r1).take 300) = (a :: r1).take 300 :=
    cnfResult_of_safe hsafe_y hhead_y
  have hlcy : toLowerList ((a :: r1).take 300)
      = (toLowerList (a :: r1)).take 300 := toLowerList_take _ _
  have h2 : toLowerList ((a :: r1).take 300) ∉ bigqueryReservedWords := by
    rw [hlcy]
    by_cases hlen : (a :: r1).length ≤ 300
    · rw [List.take_of_length_le (by rw [length_toLowerList]; exact hlen)]
      exact hw
    · intro hmem
      have hshortw := reservedWords_short _ hmem
      rw [List.length_take, length_toLowerList, Nat.min_eq_left (by omega)] at hshortw
      omega
  have h3 : bigqueryReservedPrefixes.any
      (fun p => p.isPrefixOf (toLowerList ((a :: r1).take 300))) = false := by
    rw [List.any_eq_false]
    intro p hp hpre
    have hplen : p.length ≤ 14 := reservedPfxs_len p hp
    rw [hlcy] at hpre
    have hpre2 : p <+: (toLowerList (a :: r1)).take 300 :=
      List.isPrefixOf_iff_prefix.mp hpre
    rw [List.prefix_iff_eq_take, List.take_take, Nat.min_eq_left (by omega)] at hpre2
    have hpre3 : p <+: toLowerList (a :: r1) :=
      List.prefix_iff_eq_take.mpr hpre2
    have := List.any_eq_false.mp hpfx p hp
    exact this (List.isPrefixOf_iff_prefix.mpr hpre3)
  have hshort : shortenString ((a :: r1).take 300) 300 = (a :: r1).take 300 := by
    refine List.take_of_length_le ?_
    rw [List.length_take]
    omega
  show columnNameFunc ((a :: r1).take 300) = ((a :: r1).take 300, false)
  unfold columnNameFunc
  rw [if_neg h1, hres, if_neg h2, if_neg (by rw [h3]; exact Bool.false_ne_true), hshort]

set_option maxRecDepth 4000 in
/-- C8 counterexample: ColumnName is not idempotent on every input.  On
the 301-character identifier `"_"*300 ++ "a"` the first application
keeps all characters (the collapsed form `"_a"` is neither empty nor a
lone underscore) but the 300-character clamp truncates away the final
`a`, leaving 300 underscores; the second application collapses that to
`"_"` and falls back to the hash-suffixed placeholder, a different
string. -/
theorem column_name_not_idempotent :
    (columnNameFunc (columnNameFunc (List.replicate 300 '_' ++ ['a'])).1).1
      ≠ (columnNameFunc (List.replicate 300 '_' ++ ['a'])).1 := by
  decide

/-- C8 amended: TableName is idempotent for every input, and ColumnName
is idempotent for every input whose normalized column name does not
collapse to a single underscore (the sole exception, forced by the
interaction of the 300-character length clamp with underscore-only
remainders): all branches — unsupported-character stripping,
numeric-prefix escaping, reserved words, reserved prefixes, length
clamping, and the hash-suffixed placeholder — are covered. -/
theorem identifier_normalization_idempotent (x : List Char)
    (h : collapseUnderscores (columnNameFunc x).1 ≠ ['_']) :
    tableNameFunc (tableNameFunc x).1 = tableNameFunc x
      ∧ columnNameFunc (columnNameFunc x).1 = columnNameFunc x := by
  refine ⟨rfl, ?_⟩
  by_cases h1 : cnfClean x = [] ∨ cnfClean x = ['_']
  · have hx : columnNameFunc x
        = ("column_".data ++ natToHex (hashString x), false) := by
      unfold columnNameFunc
      rw [if_pos h1]
    rw [hx]
    exact columnNameFunc_fix_hash (hashString x)
  · have hclean_ne : cnfClean x ≠ [] := fun hh => h1 (.inl hh)
    have hsafe := cnfResult_safe x
    have hhead := cnfResult_headD x
    by_cases h2 : toLowerList (cnfResult x) ∈ bigqueryReservedWords
    · have hx : columnNameFunc x = (cnfResult x, true) := by
        unfold columnNameFunc
        rw [if_neg h1, if_pos h2]
      rw [hx]
      exact columnNameFunc_fix_reserved _ hsafe hhead h2
    · by_cases h3 : bigqueryReservedPrefixes.any
        (fun p => p.isPrefixOf (toLowerList (cnfResult x))) = true
      · have hx : columnNameFunc x
            = (shortenString ('_' :: cnfResult x) 300, false) := by
          unfold columnNameFunc
          rw [if_neg h1, if_neg h2, if_pos h3]
        rw [hx]
        exact columnNameFunc_fix_pfx _ hsafe (List.any_eq_true.mp h3)
      · have h3' : bigqueryReservedPrefixes.any
            (fun p => p.isPrefixOf (toLowerList (cnfResult x))) = false :=
          Bool.eq_false_iff.mpr h3
        have hx : columnNameFunc x = (shortenString (cnfResult x) 300, false) := by
          unfold columnNameFunc
          rw [if_neg h1, if_neg h2, if_neg h3]
        have hcl : collapseUnderscores ((cnfResult x).take 300) ≠ ['_'] := by
          rw [hx] at h
          exact h
        rw [hx]
        exact columnNameFunc_fix_default _ hsafe (cnfResult_ne_nil hclean_ne)
          hhead h2 h3' hcl

/-- Witness for `identifier_normalization_idempotent` at the concrete
identifier "my col!" (space replacement, stripping and clamping all
exercised). -/
theorem identifier_normalization_idempotent_witness :
    collapseUnderscores (columnNameFunc "my col!".data).1 ≠ ['_']
      ∧ (tableNameFunc (tableNameFunc "my col!".data).1 = tableNameFunc "my col!".data
        ∧ columnNameFunc (columnNameFunc "my col!".data).1
            = columnNameFunc "my col!".data) :=
  ⟨by decide, identifier_normalization_idempotent "my col!".data (by decide)⟩

end IdentifierNames

end Bulker
